import Mathlib

/-!
Verification of the template-automation Lambda's repository-replication engine.

The development shallowly embeds the two GitHub client implementations of the
repository:

* `Eks.*`  — `src/eks_automation/app.py` (`GitHubClient`): the Git-data
  tree writer (`commit_repository_contents`) and tree reader
  (`clone_repository_contents` / `download_repository_files`), plus the
  repository-initialization poll of `get_repository`.
* `Tmpl.*` — `src/template_automation/github_client.py` (`GitHubClient`):
  the requests-based `get_repository`, and the contents-API replication
  path `clone_repository_contents`.

The remote Git-hosting service is modelled by an explicit object store
(`GitState`) behind an operation record (`GitApi`), with the honest
GitHub semantics given by `idealApi`; adversarial instances model
HTTP-level faults.  Bytes are `Nat` values below 256; base64 transport
encoding is embedded concretely (`b64encode` / `b64decode`).
-/

/-! ## Base64 (RFC 4648), as used by `base64.b64encode` / `b64decode` -/

/-- The standard base64 alphabet. -/
def b64Alphabet : List Char :=
  "ABCDEFGHIJKLMNOPQRSTUVWXYZabcdefghijklmnopqrstuvwxyz0123456789+/".data

/-- Character for a sextet value (0–63). -/
def sextetChar (n : Nat) : Char := b64Alphabet.getD n 'A'

/-- Sextet value of an alphabet character. -/
def charSextet (c : Char) : Nat := b64Alphabet.indexOf c

/-- Base64-encode a byte list (bytes are `Nat` values below 256). -/
def b64encode : List Nat → List Char
  | [] => []
  | [a] => [sextetChar (a / 4), sextetChar (a % 4 * 16), '=', '=']
  | [a, b] => [sextetChar (a / 4), sextetChar (a % 4 * 16 + b / 16), sextetChar (b % 16 * 4), '=']
  | a :: b :: c :: rest =>
      sextetChar (a / 4) :: sextetChar (a % 4 * 16 + b / 16) ::
      sextetChar (b % 16 * 4 + c / 64) :: sextetChar (c % 64) :: b64encode rest

/-- Base64-decode a character list back to bytes. -/
def b64decode : List Char → List Nat
  | c1 :: c2 :: c3 :: c4 :: rest =>
      let s1 := charSextet c1
      let s2 := charSextet c2
      if c3 = '=' then [s1 * 4 + s2 / 16]
      else
        let s3 := charSextet c3
        if c4 = '=' then [s1 * 4 + s2 / 16, s2 % 16 * 16 + s3 / 4]
        else (s1 * 4 + s2 / 16) :: (s2 % 16 * 16 + s3 / 4) ::
             (s3 % 4 * 64 + charSextet c4) :: b64decode rest
  | _ => []

theorem charSextet_sextetChar {n : Nat} (h : n < 64) : charSextet (sextetChar n) = n := by
  have hall : (List.range 64).all (fun m => charSextet (sextetChar m) == m) = true := by decide
  rw [List.all_eq_true] at hall
  have := hall n (List.mem_range.mpr h)
  simpa using this

theorem sextetChar_ne_pad {n : Nat} (h : n < 64) : sextetChar n ≠ '=' := by
  have hall : (List.range 64).all (fun m => !(sextetChar m == '=')) = true := by decide
  rw [List.all_eq_true] at hall
  have := hall n (List.mem_range.mpr h)
  simp at this
  exact this

theorem b64_roundtrip : ∀ bs : List Nat, (∀ b ∈ bs, b < 256) →
    b64decode (b64encode bs) = bs := by
  intro bs
  induction bs using b64encode.induct with
  | case1 =>
      intro _; rfl
  | case2 a =>
      intro h
      have ha : a < 256 := h a (by simp)
      have h1 : a / 4 < 64 := by omega
      have h2 : a % 4 * 16 < 64 := by omega
      simp only [b64encode, b64decode, if_true]
      rw [charSextet_sextetChar h1, charSextet_sextetChar h2]
      simp only [List.cons.injEq, and_true]
      omega
  | case3 a b =>
      intro h
      have ha : a < 256 := h a (by simp)
      have hb : b < 256 := h b (by simp)
      have h1 : a / 4 < 64 := by omega
      have h2 : a % 4 * 16 + b / 16 < 64 := by omega
      have h3 : b % 16 * 4 < 64 := by omega
      simp only [b64encode, b64decode]
      rw [if_neg (sextetChar_ne_pad h3)]
      simp only [if_true]
      rw [charSextet_sextetChar h1, charSextet_sextetChar h2, charSextet_sextetChar h3]
      simp only [List.cons.injEq, and_true]
      omega
  | case4 a b c rest ih =>
      intro h
      have ha : a < 256 := h a (by simp)
      have hb : b < 256 := h b (by simp)
      have hc : c < 256 := h c (by simp)
      have h1 : a / 4 < 64 := by omega
      have h2 : a % 4 * 16 + b / 16 < 64 := by omega
      have h3 : b % 16 * 4 + c / 64 < 64 := by omega
      have h4 : c % 64 < 64 := by omega
      simp only [b64encode, b64decode]
      rw [if_neg (sextetChar_ne_pad h3), if_neg (sextetChar_ne_pad h4)]
      rw [charSextet_sextetChar h1, charSextet_sextetChar h2, charSextet_sextetChar h3,
          charSextet_sextetChar h4]
      rw [ih (fun x hx => h x (by simp [hx]))]
      simp only [List.cons.injEq, and_true]
      omega

/-! ## Path helpers (`repo_path.split(os.path.sep)`, `startswith`) -/

/-- Split a character list on a separator, like Python `str.split`. -/
def splitOnChar (sep : Char) : List Char → List (List Char)
  | [] => [[]]
  | c :: rest =>
      let r := splitOnChar sep rest
      if c = sep then [] :: r
      else
        match r with
        | [] => [[c]]
        | h :: t => (c :: h) :: t

/-- Path components of a slash-separated path, as in
`repo_path.split(os.path.sep)` with `os.path.sep = "/"`. -/
def pathComponents (p : String) : List String :=
  (splitOnChar '/' p.data).map (fun cs => String.mk cs)

/-- Whether `".git"` occurs among the path components
(`".git" in repo_path.split(os.path.sep)` in the tree writer). -/
def hasDotGitComponent (p : String) : Bool :=
  (pathComponents p).contains ".git"

/-- `List`-level string-starts-with, like Python `str.startswith`. -/
def startsWithList : List Char → List Char → Bool
  | _, [] => true
  | [], _ :: _ => false
  | c :: cs, d :: ds => c = d && startsWithList cs ds

/-- `file_path.startswith(".git/")` of the contents-API copier. -/
def strStartsWith (s pre : String) : Bool := startsWithList s.data pre.data

/-! ## Association lists keyed by decidable-equality keys -/

/-- First-match association lookup. -/
def lookupKey {α β : Type} [DecidableEq α] (k : α) : List (α × β) → Option β
  | [] => none
  | (k', v) :: rest => if k' = k then some v else lookupKey k rest

theorem lookupKey_cons_self {α β : Type} [DecidableEq α] (k : α) (v : β) (l : List (α × β)) :
    lookupKey k ((k, v) :: l) = some v := by
  simp [lookupKey]

theorem lookupKey_cons_ne {α β : Type} [DecidableEq α] {k k' : α} (v : β) (l : List (α × β))
    (h : k' ≠ k) : lookupKey k ((k', v) :: l) = lookupKey k l := by
  simp [lookupKey, h]

theorem lookupKey_some_mem {α β : Type} [DecidableEq α] {k : α} {v : β} :
    ∀ {l : List (α × β)}, lookupKey k l = some v → (k, v) ∈ l := by
  intro l
  induction l with
  | nil => intro h; simp [lookupKey] at h
  | cons p rest ih =>
      intro h
      by_cases hk : p.1 = k
      · obtain ⟨k', v'⟩ := p
        simp only at hk
        subst hk
        rw [lookupKey_cons_self] at h
        simp_all
      · obtain ⟨k', v'⟩ := p
        rw [lookupKey_cons_ne _ _ hk] at h
        exact List.mem_cons_of_mem _ (ih h)

/-! ## The remote Git object store and its API

`GitState` models the Git-data objects owned by the remote service for one
repository: blobs (byte payloads), trees (flattened recursive listings of
blob entries, `path ↦ blob sha`; directory entries are not materialized
because the recursive tree listing flattens paths and the readers discard
entries of type `"tree"`), commits, and references.  Identifiers ("SHAs")
are freshly allocated `Nat`s. -/

/-- One element of the `tree_items` list built by the tree writer:
`{"path": ..., "mode": "100644", "type": "blob", "sha": ...}`. -/
structure TreeItem where
  path : String
  mode : String
  type : String
  sha : Nat
  deriving DecidableEq, Repr

/-- A commit object: message, tree identifier, parent commit identifiers. -/
structure CommitObj where
  message : String
  tree : Nat
  parents : List Nat
  deriving DecidableEq, Repr

/-- The remote service's object store for one repository. -/
structure GitState where
  nextSha : Nat
  blobs : List (Nat × List Nat)
  trees : List (Nat × List (String × Nat))
  commits : List (Nat × CommitObj)
  refs : List (String × Nat)
  deriving DecidableEq, Repr

/-- Errors surfaced by the remote API or raised by the clients. -/
inductive ApiErr where
  | http (status : Nat)
  | notFoundNoCreate
  | timedOut
  | refUpdateFailed
  | valueError (msg : String)
  | message (msg : String)
  deriving DecidableEq, Repr

instance exceptDecidableEq {eps alpha : Type} [DecidableEq eps] [DecidableEq alpha] :
    DecidableEq (Except eps alpha) := fun x y =>
  match x, y with
  | .ok a, .ok b =>
      if h : a = b then isTrue (h ▸ rfl) else isFalse (fun hc => h (Except.ok.inj hc))
  | .error a, .error b =>
      if h : a = b then isTrue (h ▸ rfl) else isFalse (fun hc => h (Except.error.inj hc))
  | .ok _, .error _ => isFalse (fun hc => Except.noConfusion hc)
  | .error _, .ok _ => isFalse (fun hc => Except.noConfusion hc)

/-- The operations of the remote Git-data API consumed by the eks client,
over an abstract service state `σ`.  Read operations do not change the
state; write operations return the successor state. -/
structure GitApi (σ : Type) where
  getDefaultBranch : σ → Except ApiErr String
  getReferenceSha : σ → String → Except ApiErr Nat
  getCommit : σ → Nat → Except ApiErr CommitObj
  getTree : σ → Nat → Bool → Except ApiErr (List (String × Nat))
  getBlob : σ → Nat → Except ApiErr (String × List Char)
  createBlob : σ → List Char → σ × Except ApiErr Nat
  createTree : σ → List TreeItem → Option Nat → σ × Except ApiErr Nat
  createCommit : σ → String → Nat → List Nat → σ × Except ApiErr Nat
  updateReference : σ → String → Nat → Bool → σ × Except ApiErr Unit
  createReference : σ → String → Nat → σ × Except ApiErr Unit

/-- Insert-or-overwrite one tree entry by path (remote `base_tree` merge:
an input entry replaces a base entry with the same path, otherwise it is
appended). -/
def upsertEntry (entries : List (String × Nat)) (p : String) (sha : Nat) :
    List (String × Nat) :=
  if entries.any (fun e => e.1 = p) then
    entries.map (fun e => if e.1 = p then (p, sha) else e)
  else entries ++ [(p, sha)]

/-- Merge the writer's `tree` items onto a base listing (`POST /git/trees`
with `base_tree`: untouched base paths are preserved). -/
def mergeEntries (base : List (String × Nat)) (items : List TreeItem) :
    List (String × Nat) :=
  items.foldl (fun acc i => upsertEntry acc i.path i.sha) base

/-- `POST .../git/refs` stores `"refs/heads/x"` retrievable as `"heads/x"`:
strip a leading `"refs/"`. -/
def refStripRefs (r : String) : String :=
  match r.data with
  | 'r' :: 'e' :: 'f' :: 's' :: '/' :: rest => String.mk rest
  | _ => r

/-- The honest remote service semantics over `GitState`. -/
def idealApi : GitApi GitState where
  getDefaultBranch _ := .ok "main"
  getReferenceSha s ref :=
    match lookupKey ref s.refs with
    | some sha => .ok sha
    | none => .error (.http 404)
  getCommit s sha :=
    match lookupKey sha s.commits with
    | some c => .ok c
    | none => .error (.http 404)
  getTree s sha _recursive :=
    -- the trees endpoint accepts a commit-ish: a commit SHA resolves to its tree
    match lookupKey sha s.trees with
    | some entries => .ok entries
    | none =>
        match lookupKey sha s.commits with
        | some c =>
            match lookupKey c.tree s.trees with
            | some entries => .ok entries
            | none => .error (.http 404)
        | none => .error (.http 404)
  getBlob s sha :=
    match lookupKey sha s.blobs with
    | some content => .ok ("base64", b64encode content)
    | none => .error (.http 404)
  createBlob s payload :=
    ({ s with nextSha := s.nextSha + 1,
              blobs := (s.nextSha, b64decode payload) :: s.blobs },
     .ok s.nextSha)
  createTree s items base :=
    match base with
    | none =>
        ({ s with nextSha := s.nextSha + 1,
                  trees := (s.nextSha, mergeEntries [] items) :: s.trees },
         .ok s.nextSha)
    | some b =>
        match lookupKey b s.trees with
        | some baseEntries =>
            ({ s with nextSha := s.nextSha + 1,
                      trees := (s.nextSha, mergeEntries baseEntries items) :: s.trees },
             .ok s.nextSha)
        | none => (s, .error (.http 404))
  createCommit s msg tree parents :=
    ({ s with nextSha := s.nextSha + 1,
              commits := (s.nextSha, ⟨msg, tree, parents⟩) :: s.commits },
     .ok s.nextSha)
  updateReference s ref sha _force :=
    if s.refs.any (fun e => e.1 = ref) then
      ({ s with refs := s.refs.map (fun e => if e.1 = ref then (ref, sha) else e) },
       .ok ())
    else (s, .error (.http 422))
  createReference s ref sha :=
    let key := refStripRefs ref
    if s.refs.any (fun e => e.1 = key) then (s, .error (.http 422))
    else ({ s with refs := (key, sha) :: s.refs }, .ok ())

/-! ## `src/eks_automation/app.py` — `GitHubClient` (Git-data transport) -/

namespace Eks

/-- Result of `commit_repository_contents`: final service state, whether the
fallback `create_reference` was attempted, and the returned branch name or
the raised error. -/
structure WriteOut (σ : Type) where
  state : σ
  didCreateRef : Bool
  result : Except ApiErr String

/-- Stage the work-directory files (`os.walk` loop of
`commit_repository_contents`, lines 464–486): skip paths with a `".git"`
component, `create_blob` from the base64-encoded bytes, and collect the
`tree_items`. -/
def stageFiles {σ : Type} (api : GitApi σ) (s : σ) :
    List (String × List Nat) → σ × Except ApiErr (List TreeItem)
  | [] => (s, .ok [])
  | (path, content) :: rest =>
      if hasDotGitComponent path then stageFiles api s rest
      else
        match api.createBlob s (b64encode content) with
        | (s', .ok sha) =>
            match stageFiles api s' rest with
            | (s'', .ok items) =>
                (s'', .ok ({ path := path, mode := "100644", type := "blob", sha := sha } :: items))
            | (s'', .error e) => (s'', .error e)
        | (s', .error e) => (s', .error e)

/-- Final reference step of `commit_repository_contents` (lines 519–539):
try `update_reference` (PATCH with `force=True`); on any failure fall back
to `create_reference`; if that also fails, raise. -/
def finalizeReference {σ : Type} (api : GitApi σ) (s : σ) (branch : String) (sha : Nat) :
    σ × Bool × Except ApiErr Unit :=
  match api.updateReference s ("heads/" ++ branch) sha true with
  | (s', .ok _) => (s', false, .ok ())
  | (s', .error _) =>
      match api.createReference s' ("refs/heads/" ++ branch) sha with
      | (s'', .ok _) => (s'', true, .ok ())
      | (s'', .error _) => (s'', true, .error .refUpdateFailed)

/-- `GitHubClient.commit_repository_contents` (lines 441–541): resolve the
target branch, stage one blob per file, resolve the base tree from
`heads/main`, create one tree (layered on the base) and one commit, then
advance or create the branch reference. -/
def commit_repository_contents {σ : Type} (api : GitApi σ) (s : σ)
    (files : List (String × List Nat)) (commitMessage : String)
    (branch : Option String) : WriteOut σ :=
  let targetBranch :=
    match branch with
    | some b => b
    | none =>
        match api.getDefaultBranch s with
        | .ok d => d
        | .error _ => "main"
  match stageFiles api s files with
  | (s1, .error e) => ⟨s1, false, .error e⟩
  | (s1, .ok treeItems) =>
      -- base lookup always uses "main" ("Always use main as base…", line 489)
      let base : Option (Nat × Nat) :=
        match api.getReferenceSha s1 "heads/main" with
        | .ok commitSha =>
            match api.getCommit s1 commitSha with
            | .ok commit => some (commitSha, commit.tree)
            | .error _ => none
        | .error _ => none
      match api.createTree s1 treeItems (base.map (fun p => p.2)) with
      | (s2, .error e) => ⟨s2, false, .error e⟩
      | (s2, .ok newTreeSha) =>
          let parents :=
            match base with
            | some (commitSha, _) => [commitSha]
            | none => []
          match api.createCommit s2 commitMessage newTreeSha parents with
          | (s3, .error e) => ⟨s3, false, .error e⟩
          | (s3, .ok newCommitSha) =>
              match finalizeReference api s3 targetBranch newCommitSha with
              | (s4, didCreate, .ok _) => ⟨s4, didCreate, .ok targetBranch⟩
              | (s4, didCreate, .error e) => ⟨s4, didCreate, .error e⟩

/-- `GitHubClient.download_repository_files` (lines 222–258): fetch each
blob of the tree listing and base64-decode it; non-200 blob responses and
unexpected encodings are skipped, not raised. -/
def download_repository_files {σ : Type} (api : GitApi σ) (s : σ) :
    List (String × Nat) → List (String × List Nat)
  | [] => []
  | (path, sha) :: rest =>
      match api.getBlob s sha with
      | .ok (encoding, content) =>
          if encoding = "base64" then
            (path, b64decode content) :: download_repository_files api s rest
          else download_repository_files api s rest
      | .error _ => download_repository_files api s rest

/-- `GitHubClient.clone_repository_contents` (lines 400–439): resolve the
branch to a commit, fetch the recursive tree and download all blobs; if
the reference cannot be resolved, return the best-guess branch name and no
files instead of raising. -/
def clone_repository_contents {σ : Type} (api : GitApi σ) (s : σ)
    (branch : Option String) : Except ApiErr (String × List (String × List Nat)) :=
  let resolved : Except ApiErr (String × Nat) :=
    match branch with
    | some b =>
        match api.getReferenceSha s ("heads/" ++ b) with
        | .ok sha => .ok (b, sha)
        | .error e => .error e
    | none =>
        match api.getDefaultBranch s with
        | .ok d =>
            match api.getReferenceSha s ("heads/" ++ d) with
            | .ok sha => .ok (d, sha)
            | .error e => .error e
        | .error e => .error e
  match resolved with
  | .error _ =>
      -- "the branch might not exist yet": empty tree, return branch or "main"
      .ok (branch.getD "main", [])
  | .ok (targetBranch, treeSha) =>
      match api.getTree s treeSha true with
      | .ok entries => .ok (targetBranch, download_repository_files api s entries)
      | .error e => .error e

/-- Outcome of the repository-initialization poll in `get_repository`. -/
structure PollOut where
  attempts : Nat
  sleepSecs : Nat
  timedOut : Bool
  deriving DecidableEq, Repr

/-- The initialization poll of `get_repository` (lines 111–123):
`max_retries = 100`, `retry_delay = 1`; each iteration probes
`get_reference_sha(repo_name, "heads/main")`, returning on success and
sleeping `retry_delay` seconds on failure.  `probe i` is whether the
`i`-th probe finds the reference (the remote answers non-404). -/
def initPoll (probe : Nat → Bool) (retryDelay : Nat) : Nat → Nat → PollOut
  | _, 0 => ⟨0, 0, true⟩
  | i, fuel + 1 =>
      if probe i then ⟨1, 0, false⟩
      else
        let r := initPoll probe retryDelay (i + 1) fuel
        ⟨r.attempts + 1, r.sleepSecs + retryDelay, r.timedOut⟩

/-- Result of `Eks.get_repository`. -/
structure GetOut where
  attempts : Nat
  sleepSecs : Nat
  result : Except ApiErr Unit
  deriving Repr

/-- `GitHubClient.get_repository` (lines 72–135): GET the repository; on
404 with `create=True`, POST the creation and poll `heads/main` up to 100
times, raising an initialization-timeout error if it never appears; on 404
with `create=False` (or any other non-200 status) raise "not found and
create=False".  `getStatus`/`createStatus` are the HTTP statuses the
remote answers to the GET and the creation POST. -/
def get_repository (getStatus : Nat) (create : Bool) (createStatus : Nat)
    (probe : Nat → Bool) : GetOut :=
  if getStatus = 200 then ⟨0, 0, .ok ()⟩
  else if getStatus = 404 && create then
    if createStatus = 201 || createStatus = 200 then
      let p := initPoll probe 1 0 100
      if p.timedOut then ⟨p.attempts, p.sleepSecs, .error .timedOut⟩
      else ⟨p.attempts, p.sleepSecs, .ok ()⟩
    else ⟨0, 0, .error (.message "Failed to create repository")⟩
  else ⟨0, 0, .error .notFoundNoCreate⟩

end Eks

/-! ## Invariants and lemmas about the ideal service -/

/-- Store well-formedness: every allocated identifier is below the
fresh-identifier counter. -/
def WfGit (s : GitState) : Prop :=
  (∀ p ∈ s.blobs, p.1 < s.nextSha) ∧
  (∀ p ∈ s.trees, p.1 < s.nextSha) ∧
  (∀ p ∈ s.commits, p.1 < s.nextSha)

instance wfGitDecidable (s : GitState) : Decidable (WfGit s) :=
  inferInstanceAs (Decidable ((∀ p ∈ s.blobs, p.1 < s.nextSha) ∧
    (∀ p ∈ s.trees, p.1 < s.nextSha) ∧ (∀ p ∈ s.commits, p.1 < s.nextSha)))

theorem lookupKey_none_of_forall_ne {α β : Type} [DecidableEq α] {k : α} :
    ∀ {l : List (α × β)}, (∀ p ∈ l, p.1 ≠ k) → lookupKey k l = none := by
  intro l
  induction l with
  | nil => intro _; rfl
  | cons p rest ih =>
      intro h
      obtain ⟨k', v'⟩ := p
      rw [lookupKey_cons_ne _ _ (h (k', v') (by simp))]
      exact ih (fun q hq => h q (List.mem_cons_of_mem _ hq))

theorem any_key_false_of_lookup_none {α β : Type} [DecidableEq α] {k : α} :
    ∀ {l : List (α × β)}, lookupKey k l = none →
    l.any (fun e => e.1 = k) = false := by
  intro l
  induction l with
  | nil => intro _; rfl
  | cons p rest ih =>
      intro h
      obtain ⟨k', v'⟩ := p
      by_cases hk : k' = k
      · subst hk; rw [lookupKey_cons_self] at h; cases h
      · rw [lookupKey_cons_ne _ _ hk] at h
        simp [hk, ih h]

theorem lookupKey_map_update {α β : Type} [DecidableEq α] (k : α) (v : β) :
    ∀ (l : List (α × β)), l.any (fun e => e.1 = k) = true →
    lookupKey k (l.map (fun e => if e.1 = k then (k, v) else e)) = some v := by
  intro l
  induction l with
  | nil => intro h; cases h
  | cons p rest ih =>
      intro h
      obtain ⟨k', v'⟩ := p
      by_cases hk : k' = k
      · subst hk
        simp only [List.map_cons, if_pos rfl]
        exact lookupKey_cons_self _ _ _
      · simp only [List.any_cons, hk, decide_eq_true_eq] at h
        simp only [List.map_cons, if_neg hk]
        rw [lookupKey_cons_ne _ _ hk]
        refine ih ?_
        simpa using h

theorem refStripRefs_append (t : String) : refStripRefs ("refs/" ++ t) = t := by
  have hdata : ("refs/" ++ t).data = 'r' :: 'e' :: 'f' :: 's' :: '/' :: t.data := by
    rw [String.data_append]
    rfl
  unfold refStripRefs
  rw [hdata]
  cases t with
  | mk d => rfl

theorem idealApi_createBlob (s : GitState) (payload : List Char) :
    idealApi.createBlob s payload =
      ({ s with nextSha := s.nextSha + 1,
                blobs := (s.nextSha, b64decode payload) :: s.blobs },
       .ok s.nextSha) := rfl

theorem idealApi_getReferenceSha (s : GitState) (ref : String) :
    idealApi.getReferenceSha s ref =
      (match lookupKey ref s.refs with
       | some sha => .ok sha
       | none => .error (.http 404)) := rfl

theorem idealApi_getCommit (s : GitState) (sha : Nat) :
    idealApi.getCommit s sha =
      (match lookupKey sha s.commits with
       | some c => .ok c
       | none => .error (.http 404)) := rfl

theorem idealApi_getBlob (s : GitState) (sha : Nat) :
    idealApi.getBlob s sha =
      (match lookupKey sha s.blobs with
       | some content => .ok ("base64", b64encode content)
       | none => .error (.http 404)) := rfl

theorem idealApi_createCommit (s : GitState) (msg : String) (tree : Nat) (parents : List Nat) :
    idealApi.createCommit s msg tree parents =
      ({ s with nextSha := s.nextSha + 1,
                commits := (s.nextSha, ⟨msg, tree, parents⟩) :: s.commits },
       .ok s.nextSha) := rfl

/-- Staging files against the honest service always succeeds and produces
one fresh blob per (non-`.git`) file, without touching trees, commits or
references, preserving existing blob bindings. -/
theorem stageFiles_spec :
    ∀ (files : List (String × List Nat)) (s : GitState), WfGit s →
    (∀ f ∈ files, hasDotGitComponent f.1 = false) →
    (∀ f ∈ files, ∀ b ∈ f.2, b < 256) →
    ∃ s' items, Eks.stageFiles idealApi s files = (s', .ok items) ∧
      s'.refs = s.refs ∧ s'.trees = s.trees ∧ s'.commits = s.commits ∧
      s.nextSha ≤ s'.nextSha ∧ WfGit s' ∧
      (∀ k v, lookupKey k s.blobs = some v → lookupKey k s'.blobs = some v) ∧
      items.map TreeItem.path = files.map Prod.fst ∧
      List.Forall₂ (fun (f : String × List Nat) (i : TreeItem) =>
        i.path = f.1 ∧ lookupKey i.sha s'.blobs = some f.2) files items := by
  intro files
  induction files with
  | nil =>
      intro s hwf _ _
      exact ⟨s, [], rfl, rfl, rfl, rfl, le_refl _, hwf, fun _ _ h => h, rfl, .nil⟩
  | cons f rest ih =>
      intro s hwf hgit h256
      obtain ⟨p, c⟩ := f
      have hgit0 : hasDotGitComponent p = false := hgit (p, c) (by simp)
      have h256c : ∀ b ∈ c, b < 256 := h256 (p, c) (by simp)
      obtain ⟨hb, ht, hc⟩ := hwf
      set s1 : GitState :=
        { s with nextSha := s.nextSha + 1,
                 blobs := (s.nextSha, b64decode (b64encode c)) :: s.blobs } with hs1
      have hwf1 : WfGit s1 := by
        refine ⟨?_, ?_, ?_⟩
        · intro q hq
          simp only [hs1, List.mem_cons] at hq
          rcases hq with h | h
          · subst h; simp [hs1]
          · exact Nat.lt_succ_of_lt (hb q h)
        · intro q hq; exact Nat.lt_succ_of_lt (ht q hq)
        · intro q hq; exact Nat.lt_succ_of_lt (hc q hq)
      obtain ⟨s', items, heq, hrefs, htrees, hcommits, hle, hwf', hpres, hpaths, hall⟩ :=
        ih s1 hwf1 (fun g hg => hgit g (List.mem_cons_of_mem _ hg))
          (fun g hg => h256 g (List.mem_cons_of_mem _ hg))
      refine ⟨s', ⟨p, "100644", "blob", s.nextSha⟩ :: items, ?_, hrefs, htrees, hcommits,
        le_trans (Nat.le_succ _) hle, hwf', ?_, ?_, ?_⟩
      · simp only [Eks.stageFiles, hgit0, Bool.false_eq_true, if_false, idealApi_createBlob]
        rw [← hs1, heq]
      · intro k v hk
        have hkmem := lookupKey_some_mem hk
        have hklt : k < s.nextSha := hb (k, v) hkmem
        apply hpres
        show lookupKey k ((s.nextSha, b64decode (b64encode c)) :: s.blobs) = some v
        rw [lookupKey_cons_ne _ _ (show s.nextSha ≠ k by omega)]
        exact hk
      · simpa using hpaths
      · refine .cons ⟨rfl, ?_⟩ hall
        apply hpres
        show lookupKey s.nextSha ((s.nextSha, b64decode (b64encode c)) :: s.blobs) = some c
        rw [b64_roundtrip c h256c]
        exact lookupKey_cons_self _ _ _

/-- With a fresh accumulator-disjoint item list of pairwise-distinct paths,
the `base_tree` merge appends the items in order. -/
theorem mergeEntries_fresh :
    ∀ (items : List TreeItem) (acc : List (String × Nat)),
    (∀ i ∈ items, acc.any (fun e => e.1 = i.path) = false) →
    (items.map TreeItem.path).Nodup →
    mergeEntries acc items = acc ++ items.map (fun i => (i.path, i.sha)) := by
  intro items
  induction items with
  | nil => intro acc _ _; simp [mergeEntries]
  | cons i rest ih =>
      intro acc hdisj hnodup
      have hacc : acc.any (fun e => e.1 = i.path) = false := hdisj i (by simp)
      have hstep : mergeEntries acc (i :: rest) =
          mergeEntries (acc ++ [(i.path, i.sha)]) rest := by
        simp [mergeEntries, upsertEntry, hacc]
      rw [hstep]
      rw [ih (acc ++ [(i.path, i.sha)]) ?_ ?_]
      · simp
      · intro j hj
        rw [List.any_append]
        have h1 : acc.any (fun e => e.1 = j.path) = false :=
          hdisj j (List.mem_cons_of_mem _ hj)
        have h2 : i.path ≠ j.path := by
          simp only [List.map_cons, List.nodup_cons] at hnodup
          intro hcontra
          exact hnodup.1 (hcontra ▸ List.mem_map_of_mem TreeItem.path hj)
        simp [h1, h2]
      · simp only [List.map_cons, List.nodup_cons] at hnodup
        exact hnodup.2

/-- Reading back staged entries from any state holding their blobs returns
the original files byte-for-byte. -/
theorem download_spec :
    ∀ {files : List (String × List Nat)} {items : List TreeItem} (sF : GitState)
    {bl : List (Nat × List Nat)}, sF.blobs = bl →
    List.Forall₂ (fun (f : String × List Nat) (i : TreeItem) =>
      i.path = f.1 ∧ lookupKey i.sha bl = some f.2) files items →
    (∀ f ∈ files, ∀ b ∈ f.2, b < 256) →
    Eks.download_repository_files idealApi sF
      (items.map (fun i => (i.path, i.sha))) = files := by
  intro files items sF bl hbl h
  induction h with
  | nil => intro _; rfl
  | cons hfi _ ih =>
      rename_i f i rest₁ rest₂ _
      intro h256
      obtain ⟨hpath, hblob⟩ := hfi
      have hblob' : lookupKey i.sha sF.blobs = some f.2 := by rw [hbl]; exact hblob
      simp only [List.map_cons, Eks.download_repository_files, idealApi_getBlob, hblob']
      simp only [if_true]
      rw [ih (fun g hg => h256 g (List.mem_cons_of_mem _ hg)), hpath,
          b64_roundtrip f.2 (h256 f (by simp))]

theorem idealApi_createTree_none (s : GitState) (items : List TreeItem) :
    idealApi.createTree s items none =
      ({ s with nextSha := s.nextSha + 1,
                trees := (s.nextSha, mergeEntries [] items) :: s.trees },
       .ok s.nextSha) := rfl

theorem idealApi_createTree_some (s : GitState) (items : List TreeItem) (b : Nat)
    {baseEntries : List (String × Nat)} (h : lookupKey b s.trees = some baseEntries) :
    idealApi.createTree s items (some b) =
      ({ s with nextSha := s.nextSha + 1,
                trees := (s.nextSha, mergeEntries baseEntries items) :: s.trees },
       .ok s.nextSha) := by
  show (match lookupKey b s.trees with
        | some baseEntries =>
            ({ s with nextSha := s.nextSha + 1,
                      trees := (s.nextSha, mergeEntries baseEntries items) :: s.trees },
             Except.ok s.nextSha)
        | none => (s, Except.error (ApiErr.http 404))) = _
  rw [h]

theorem idealApi_getTree (s : GitState) (sha : Nat) (r : Bool) :
    idealApi.getTree s sha r =
      (match lookupKey sha s.trees with
       | some entries => .ok entries
       | none =>
           match lookupKey sha s.commits with
           | some c =>
               match lookupKey c.tree s.trees with
               | some entries => .ok entries
               | none => .error (.http 404)
           | none => .error (.http 404)) := rfl

theorem idealApi_updateReference (s : GitState) (ref : String) (sha : Nat) (force : Bool) :
    idealApi.updateReference s ref sha force =
      (if s.refs.any (fun e => e.1 = ref) then
        ({ s with refs := s.refs.map (fun e => if e.1 = ref then (ref, sha) else e) },
         .ok ())
      else (s, .error (.http 422))) := rfl

theorem idealApi_createReference (s : GitState) (ref : String) (sha : Nat) :
    idealApi.createReference s ref sha =
      (if s.refs.any (fun e => e.1 = refStripRefs ref) then (s, .error (.http 422))
       else ({ s with refs := (refStripRefs ref, sha) :: s.refs }, .ok ())) := rfl

theorem refsHeads_split (br : String) : "refs/heads/" ++ br = "refs/" ++ ("heads/" ++ br) := by
  rw [← String.append_assoc]
  rfl

/-- Claim C1 (amended): for every set of `(path, content)` entries with
pairwise-distinct non-`.git` paths committed to a branch via the tree
writer (`commit_repository_contents`: one blob per file, one tree, one
commit, then advance the reference) in a repository whose target branch
and `heads/main` base branch do not yet resolve (no base tree), a
subsequent tree-reader read of that same branch
(`clone_repository_contents`) returns exactly those entries with
byte-identical content.  (When a base tree exists, the read additionally
returns the base tree's untouched entries, so "exactly" holds only in the
no-base-tree case.) -/
theorem write_then_read_fresh
    (s : GitState) (files : List (String × List Nat)) (msg : String) (br : String)
    (hwf : WfGit s)
    (hnodup : (files.map Prod.fst).Nodup)
    (hgit : ∀ f ∈ files, hasDotGitComponent f.1 = false)
    (h256 : ∀ f ∈ files, ∀ b ∈ f.2, b < 256)
    (hmain : lookupKey "heads/main" s.refs = none)
    (hbr : lookupKey ("heads/" ++ br) s.refs = none) :
    (Eks.commit_repository_contents idealApi s files msg (some br)).result = .ok br ∧
    Eks.clone_repository_contents idealApi
      (Eks.commit_repository_contents idealApi s files msg (some br)).state (some br) =
      .ok (br, files) := by
  obtain ⟨s1, items, heq, hrefs, htrees, hcommits, hle, hwf1, hpres, hpaths, hall⟩ :=
    stageFiles_spec files s hwf hgit h256
  have hnodupItems : (items.map TreeItem.path).Nodup := by rw [hpaths]; exact hnodup
  have hmerge : mergeEntries [] items = items.map (fun i => (i.path, i.sha)) := by
    rw [mergeEntries_fresh items [] (fun _ _ => rfl) hnodupItems]
    simp
  have hanyBr : s.refs.any (fun e => e.1 = "heads/" ++ br) = false :=
    any_key_false_of_lookup_none hbr
  have hw : Eks.commit_repository_contents idealApi s files msg (some br) =
      ⟨{ nextSha := s1.nextSha + 1 + 1,
         blobs := s1.blobs,
         trees := (s1.nextSha, mergeEntries [] items) :: s1.trees,
         commits := (s1.nextSha + 1, ⟨msg, s1.nextSha, []⟩) :: s1.commits,
         refs := ("heads/" ++ br, s1.nextSha + 1) :: s1.refs },
       true, .ok br⟩ := by
    simp only [Eks.commit_repository_contents]
    rw [heq]
    simp only [idealApi_getReferenceSha]
    rw [hrefs, hmain]
    simp only [Option.map_none', idealApi_createTree_none, idealApi_createCommit,
      Eks.finalizeReference, idealApi_updateReference, idealApi_createReference,
      refsHeads_split br, refStripRefs_append, hrefs, hanyBr, Bool.false_eq_true,
      if_false]
  rw [hw]
  refine ⟨rfl, ?_⟩
  simp only [Eks.clone_repository_contents, idealApi_getReferenceSha]
  rw [lookupKey_cons_self]
  simp only [idealApi_getTree]
  rw [lookupKey_cons_ne _ _ (show s1.nextSha ≠ s1.nextSha + 1 by omega)]
  have hnone : lookupKey (s1.nextSha + 1) s1.trees = none := by
    apply lookupKey_none_of_forall_ne
    intro p hp
    have := hwf1.2.1 p hp
    omega
  simp only [hnone, lookupKey_cons_self, hmerge]
  rw [download_spec
    { nextSha := s1.nextSha + 1 + 1, blobs := s1.blobs,
      trees := (s1.nextSha, List.map (fun i => (i.path, i.sha)) items) :: s1.trees,
      commits := (s1.nextSha + 1, ⟨msg, s1.nextSha, []⟩) :: s1.commits,
      refs := ("heads/" ++ br, s1.nextSha + 1) :: s1.refs }
    rfl hall h256]

theorem any_key_true_of_lookup_some {α β : Type} [DecidableEq α] {k : α} {v : β} :
    ∀ {l : List (α × β)}, lookupKey k l = some v →
    l.any (fun e => e.1 = k) = true := by
  intro l
  induction l with
  | nil => intro h; cases h
  | cons p rest ih =>
      intro h
      obtain ⟨k', v'⟩ := p
      by_cases hk : k' = k
      · simp [hk]
      · rw [lookupKey_cons_ne _ _ hk] at h
        simp [hk, ih h]

/-- `download_repository_files` against the honest service depends only on
the blob store. -/
theorem download_blobs_congr (s s' : GitState) (h : s.blobs = s'.blobs) :
    ∀ entries, Eks.download_repository_files idealApi s entries =
      Eks.download_repository_files idealApi s' entries := by
  intro entries
  induction entries with
  | nil => rfl
  | cons e rest ih =>
      obtain ⟨p, sha⟩ := e
      simp only [Eks.download_repository_files, idealApi_getBlob, h, ih]

/-- Claim C2 (amended): writing an empty entry set through the tree writer
leaves the `(path, content)` set read from the branch unchanged only when
the target branch is the `"main"` branch the writer always resolves its
base tree from (then the new tree is the base-tree merge of no items —
the branch's own tree, so no path is deleted and no content changes); for
any other branch the writer rebuilds it from `heads/main`'s tree and
force-updates the reference, deleting the branch's own paths. -/
theorem c2_empty_write_preserves_branch
    (s : GitState) (c : Nat) (co : CommitObj) (entries : List (String × Nat)) (msg : String)
    (hwf : WfGit s)
    (href : lookupKey "heads/main" s.refs = some c)
    (hcnotree : lookupKey c s.trees = none)
    (hcommit : lookupKey c s.commits = some co)
    (htree : lookupKey co.tree s.trees = some entries) :
    (Eks.commit_repository_contents idealApi s [] msg (some "main")).result = .ok "main" ∧
    Eks.clone_repository_contents idealApi
      (Eks.commit_repository_contents idealApi s [] msg (some "main")).state (some "main") =
      Eks.clone_repository_contents idealApi s (some "main") := by
  have hany : s.refs.any (fun e => e.1 = "heads/main") = true :=
    any_key_true_of_lookup_some href
  have hh : ("heads/" ++ "main" : String) = "heads/main" := rfl
  have hmergeNil : mergeEntries entries [] = entries := rfl
  have hw : Eks.commit_repository_contents idealApi s [] msg (some "main") =
      ⟨{ nextSha := s.nextSha + 1 + 1,
         blobs := s.blobs,
         trees := (s.nextSha, entries) :: s.trees,
         commits := (s.nextSha + 1, ⟨msg, s.nextSha, [c]⟩) :: s.commits,
         refs := s.refs.map (fun e =>
           if e.1 = "heads/main" then ("heads/main", s.nextSha + 1) else e) },
       false, .ok "main"⟩ := by
    simp only [Eks.commit_repository_contents, Eks.stageFiles, idealApi_getReferenceSha,
      hh, href, idealApi_getCommit, hcommit, Option.map_some', idealApi_createCommit,
      Eks.finalizeReference, idealApi_updateReference,
      idealApi_createTree_some s [] co.tree htree, hmergeNil, hany, if_true]
  rw [hw]
  refine ⟨rfl, ?_⟩
  have hbefore : Eks.clone_repository_contents idealApi s (some "main") =
      .ok ("main", Eks.download_repository_files idealApi s entries) := by
    simp only [Eks.clone_repository_contents, idealApi_getReferenceSha, hh, href,
      idealApi_getTree, hcnotree, hcommit, htree]
  rw [hbefore]
  simp only [Eks.clone_repository_contents, idealApi_getReferenceSha, hh]
  rw [lookupKey_map_update "heads/main" (s.nextSha + 1) s.refs hany]
  simp only [idealApi_getTree]
  rw [lookupKey_cons_ne _ _ (show s.nextSha ≠ s.nextSha + 1 by omega)]
  have hnone : lookupKey (s.nextSha + 1) s.trees = none := by
    apply lookupKey_none_of_forall_ne
    intro p hp
    have := hwf.2.1 p hp
    omega
  simp only [hnone, lookupKey_cons_self]
  rw [download_blobs_congr
    { nextSha := s.nextSha + 1 + 1,
      blobs := s.blobs,
      trees := (s.nextSha, entries) :: s.trees,
      commits := (s.nextSha + 1, ⟨msg, s.nextSha, [c]⟩) :: s.commits,
      refs := s.refs.map (fun e =>
        if e.1 = "heads/main" then ("heads/main", s.nextSha + 1) else e) }
    s rfl entries]

/-- Counterexample to claim C1 as stated: against a repository whose
`heads/main` already carries a base tree with `README.md`, committing the
single entry `config.json` and reading the branch back returns `README.md`
as well — not exactly the committed entry set. -/
theorem c1_counterexample :
    Eks.clone_repository_contents idealApi
      (Eks.commit_repository_contents idealApi
        ⟨3, [(0, [35])], [(1, [("README.md", 0)])], [(2, ⟨"init", 1, []⟩)],
         [("heads/main", 2)]⟩
        [("config.json", [123])] "m" (some "main")).state
      (some "main") =
      .ok ("main", [("README.md", [35]), ("config.json", [123])]) ∧
    [(("README.md" : String), ([35] : List Nat)), ("config.json", [123])] ≠
      [("config.json", [123])] := by
  constructor
  · rfl
  · decide

/-- Witness for the amended claim C1 at a concrete two-file input. -/
theorem write_then_read_fresh_witness :
    (Eks.commit_repository_contents idealApi ⟨0, [], [], [], []⟩
      [("a.txt", [1]), ("sub/b.txt", [2])] "m" (some "main")).result = .ok "main" ∧
    Eks.clone_repository_contents idealApi
      (Eks.commit_repository_contents idealApi ⟨0, [], [], [], []⟩
        [("a.txt", [1]), ("sub/b.txt", [2])] "m" (some "main")).state (some "main") =
      .ok ("main", [("a.txt", [1]), ("sub/b.txt", [2])]) :=
  write_then_read_fresh ⟨0, [], [], [], []⟩ [("a.txt", [1]), ("sub/b.txt", [2])] "m" "main"
    (by decide) (by decide) (by decide) (by decide) (by decide) (by decide)

/-- Witness for claim C2 at a concrete state whose `heads/main` carries a
one-file tree. -/
theorem c2_empty_write_preserves_branch_witness :
    (Eks.commit_repository_contents idealApi
      ⟨3, [(0, [35])], [(1, [("README.md", 0)])], [(2, ⟨"init", 1, []⟩)],
       [("heads/main", 2)]⟩ [] "m" (some "main")).result = .ok "main" ∧
    Eks.clone_repository_contents idealApi
      (Eks.commit_repository_contents idealApi
        ⟨3, [(0, [35])], [(1, [("README.md", 0)])], [(2, ⟨"init", 1, []⟩)],
         [("heads/main", 2)]⟩ [] "m" (some "main")).state (some "main") =
      Eks.clone_repository_contents idealApi
        ⟨3, [(0, [35])], [(1, [("README.md", 0)])], [(2, ⟨"init", 1, []⟩)],
         [("heads/main", 2)]⟩ (some "main") :=
  c2_empty_write_preserves_branch
    ⟨3, [(0, [35])], [(1, [("README.md", 0)])], [(2, ⟨"init", 1, []⟩)],
     [("heads/main", 2)]⟩ 2 ⟨"init", 1, []⟩ [("README.md", 0)] "m"
    (by decide) (by decide) (by decide) (by decide) (by decide)

/-- Counterexample to claim C2 as stated (over every branch): with
`heads/main` holding `README.md` and `heads/feature` holding `x.txt`,
the empty write to `feature` succeeds, yet afterwards reading `feature`
returns `main`'s `README.md` instead of `x.txt` — the branch's own path
is deleted, because the writer's base tree always comes from
`heads/main`, not from the target branch. -/
theorem c2_counterexample :
    (Eks.commit_repository_contents idealApi
      ⟨6, [(0, [35]), (3, [120])],
       [(1, [("README.md", 0)]), (4, [("x.txt", 3)])],
       [(2, ⟨"init", 1, []⟩), (5, ⟨"feat", 4, []⟩)],
       [("heads/main", 2), ("heads/feature", 5)]⟩
      [] "m" (some "feature")).result = .ok "feature" ∧
    Eks.clone_repository_contents idealApi
      ⟨6, [(0, [35]), (3, [120])],
       [(1, [("README.md", 0)]), (4, [("x.txt", 3)])],
       [(2, ⟨"init", 1, []⟩), (5, ⟨"feat", 4, []⟩)],
       [("heads/main", 2), ("heads/feature", 5)]⟩
      (some "feature") = .ok ("feature", [("x.txt", [120])]) ∧
    Eks.clone_repository_contents idealApi
      (Eks.commit_repository_contents idealApi
        ⟨6, [(0, [35]), (3, [120])],
         [(1, [("README.md", 0)]), (4, [("x.txt", 3)])],
         [(2, ⟨"init", 1, []⟩), (5, ⟨"feat", 4, []⟩)],
         [("heads/main", 2), ("heads/feature", 5)]⟩
        [] "m" (some "feature")).state
      (some "feature") = .ok ("feature", [("README.md", [35])]) :=
  ⟨rfl, rfl, rfl⟩

/-! ## `src/template_automation/github_client.py` — `GitHubClient` (requests) -/

namespace Tmpl

/-- A repository descriptor (`default_branch`) plus whether its default
branch exists on the remote (has a commit). -/
structure TRepo where
  default_branch : String
  hasBranch : Bool
  deriving DecidableEq, Repr

/-- Remote state for the repository-level API: repositories by name, and
the number of repository-creation POSTs the remote has received. -/
structure TmplState where
  repos : List (String × TRepo)
  createPosts : Nat
  deriving DecidableEq, Repr

/-- Result of `Tmpl.get_repository`: branch-existence probes issued,
seconds slept, and the returned repository descriptor or error. -/
structure GetOut where
  probes : Nat
  sleepSecs : Nat
  result : Except ApiErr TRepo
  deriving Repr

/-- The `PUT …/contents/README.md` initialization: the content write brings
the default branch into existence. -/
def setHasBranch (s : TmplState) (name : String) : TmplState :=
  { s with repos := s.repos.map (fun e =>
      if e.1 = name then (name, { e.2 with hasBranch := true }) else e) }

/-- The `for _ in range(3)` verification loop of `get_repository`
(lines 227–236): each iteration probes the default branch via
`get_branch`; on failure it sleeps 2 s and re-fetches the descriptor.
`probe i` is whether the `i`-th probe succeeds (the remote answers
non-404).  Returns (probes issued, seconds slept). -/
def probeLoop (probe : Nat → Bool) : Nat → Nat → Nat × Nat
  | _, 0 => (0, 0)
  | i, fuel + 1 =>
      if probe i then (1, 0)
      else
        let r := probeLoop probe (i + 1) fuel
        (r.1 + 1, r.2 + 2)

/-- `GitHubClient.get_repository` (lines 152–249): GET the repository; on
404 with `create=True`, POST a minimal creation, initialize via a README
content write, sleep 2 s, re-fetch the descriptor through
`url.replace("/orgs/", "/repos/")` — which queries the repository
literally named `"repos"` — and verify the default branch with at most 3
probes; every initialization failure is logged and swallowed
("Continue anyway since we already have the repository"). On 404 with
`create=False` the `HTTPError` is re-raised. -/
def get_repository (probe : Nat → Bool) (s : TmplState) (repo_name : String)
    (create : Bool) : TmplState × GetOut :=
  match lookupKey repo_name s.repos with
  | some r => (s, ⟨0, 0, .ok r⟩)
  | none =>
      if create then
        -- POST /orgs/{org}/repos with {"name": repo_name, "private": true}
        let rPost : TRepo := ⟨"main", false⟩
        let s1 : TmplState := ⟨(repo_name, rPost) :: s.repos, s.createPosts + 1⟩
        -- try-block: PUT …/contents/README.md creates the default branch
        let s2 := setHasBranch s1 repo_name
        -- time.sleep(2), then GET url.replace("/orgs/", "/repos/"), i.e.
        -- GET /repos/{org}/repos — the repository named "repos"
        match lookupKey "repos" s2.repos with
        | none =>
            -- HTTPError 404 → `except Exception as init_error`: logged,
            -- "Continue anyway"; the POST response is returned as-is
            (s2, ⟨0, 2, .ok rPost⟩)
        | some rr =>
            -- probe loop over the re-fetched descriptor; after the loop the
            -- (possibly re-fetched) descriptor `repo` is returned
            let pl := probeLoop probe 0 3
            (s2, ⟨pl.1, 2 + pl.2, .ok rr⟩)
      else (s, ⟨0, 0, .error (.http 404)⟩)

end Tmpl

theorem probeLoop_const_false (probe : Nat → Bool) (h : ∀ i, probe i = false) :
    ∀ (fuel i : Nat), Tmpl.probeLoop probe i fuel = (fuel, 2 * fuel) := by
  intro fuel
  induction fuel with
  | zero => intro i; rfl
  | succ n ih =>
      intro i
      simp [Tmpl.probeLoop, h i, ih (i + 1), Nat.mul_succ]

theorem initPoll_const_false (probe : Nat → Bool) (d : Nat) (h : ∀ i, probe i = false) :
    ∀ (fuel i : Nat), Eks.initPoll probe d i fuel = ⟨fuel, fuel * d, true⟩ := by
  intro fuel
  induction fuel with
  | zero => intro i; simp [Eks.initPoll]
  | succ n ih =>
      intro i
      simp [Eks.initPoll, h i, ih (i + 1), Nat.succ_mul]

theorem forall_ne_of_lookupKey_none {α β : Type} [DecidableEq α] {k : α} :
    ∀ {l : List (α × β)}, lookupKey k l = none → ∀ p ∈ l, p.1 ≠ k := by
  intro l
  induction l with
  | nil => intro _ p hp; cases hp
  | cons q rest ih =>
      intro h p hp
      obtain ⟨k', v'⟩ := q
      by_cases hk : k' = k
      · subst hk; rw [lookupKey_cons_self] at h; cases h
      · rw [lookupKey_cons_ne _ _ hk] at h
        rcases List.mem_cons.mp hp with hh | ht
        · subst hh; exact hk
        · exact ih h p ht

theorem setHasBranch_map_no_hit (name : String) :
    ∀ (l : List (String × Tmpl.TRepo)), (∀ p ∈ l, p.1 ≠ name) →
    l.map (fun e => if e.1 = name then (name, { e.2 with hasBranch := true }) else e) = l := by
  intro l
  induction l with
  | nil => intro _; rfl
  | cons p rest ih =>
      intro h
      rw [List.map_cons, if_neg (h p (by simp)),
        ih (fun q hq => h q (List.mem_cons_of_mem _ hq))]

/-- Claim C3 (amended): with the remote answering 404 to every
default-branch existence probe after repository creation, the
eks_automation `get_repository(create=True)` performs 100 probe attempts
(at least 10) spanning 100 seconds of sleeps (at least 20) and then raises
the initialization-timeout error; the requests-based template_automation
`get_repository(create=True)` instead returns the repository successfully
after at most 3 probe attempts and at most 8 seconds, never raising. -/
theorem c3_init_timeout_amended :
    (∀ probe : Nat → Bool, (∀ i, probe i = false) →
      (Eks.get_repository 404 true 201 probe).result = .error .timedOut ∧
      (Eks.get_repository 404 true 201 probe).attempts = 100 ∧
      10 ≤ (Eks.get_repository 404 true 201 probe).attempts ∧
      (Eks.get_repository 404 true 201 probe).sleepSecs = 100 ∧
      20 ≤ (Eks.get_repository 404 true 201 probe).sleepSecs) ∧
    (∀ (probe : Nat → Bool) (s : Tmpl.TmplState) (name : String),
      (∀ i, probe i = false) →
      lookupKey name s.repos = none →
      ∃ r, (Tmpl.get_repository probe s name true).2.result = .ok r ∧
        (Tmpl.get_repository probe s name true).2.probes ≤ 3 ∧
        (Tmpl.get_repository probe s name true).2.sleepSecs ≤ 8) := by
  constructor
  · intro probe h
    have hpoll := initPoll_const_false probe 1 h 100 0
    have hrun : Eks.get_repository 404 true 201 probe = ⟨100, 100, .error .timedOut⟩ := by
      simp [Eks.get_repository, hpoll]
    refine ⟨by rw [hrun], by rw [hrun], by rw [hrun]; decide, by rw [hrun],
      by rw [hrun]; decide⟩
  · intro probe s name h hname
    have hpl := probeLoop_const_false probe h 3 0
    simp only [Tmpl.get_repository, hname]
    cases hrep : lookupKey "repos" (Tmpl.setHasBranch
        ⟨(name, ⟨"main", false⟩) :: s.repos, s.createPosts + 1⟩ name).repos with
    | none =>
        refine ⟨⟨"main", false⟩, ?_, ?_, ?_⟩ <;> simp [hrep]
    | some rr =>
        refine ⟨rr, ?_, ?_, ?_⟩ <;> simp [hrep, hpl]

/-- Counterexample to claim C3 as stated: in the requests-based
template_automation client, with the remote answering 404 to every probe,
`get_repository(create=True)` on a fresh organization returns successfully
(`.ok`) after 0 probe attempts and 2 seconds — it performs neither the
required 10 attempts nor 20 seconds, and raises nothing. -/
theorem c3_counterexample :
    (Tmpl.get_repository (fun _ => false) ⟨[], 0⟩ "proj" true).2.result =
      .ok ⟨"main", false⟩ ∧
    (Tmpl.get_repository (fun _ => false) ⟨[], 0⟩ "proj" true).2.probes = 0 ∧
    (Tmpl.get_repository (fun _ => false) ⟨[], 0⟩ "proj" true).2.sleepSecs = 2 :=
  ⟨rfl, rfl, rfl⟩

/-- Witness for the amended claim C3. -/
theorem c3_init_timeout_amended_witness :
    (Eks.get_repository 404 true 201 (fun _ => false)).result = .error .timedOut ∧
    (∃ r, (Tmpl.get_repository (fun _ => false) ⟨[], 0⟩ "proj" true).2.result = .ok r ∧
      (Tmpl.get_repository (fun _ => false) ⟨[], 0⟩ "proj" true).2.probes ≤ 3 ∧
      (Tmpl.get_repository (fun _ => false) ⟨[], 0⟩ "proj" true).2.sleepSecs ≤ 8) :=
  ⟨(c3_init_timeout_amended.1 (fun _ => false) (fun _ => rfl)).1,
   c3_init_timeout_amended.2 (fun _ => false) ⟨[], 0⟩ "proj" (fun _ => rfl) rfl⟩

/-- Claim C4: a GET answered 404 with `create=False` propagates a NotFound
error in both clients — the template_automation client re-raises the
`HTTPError` (status 404) with its state untouched (no creation POST), and
the eks_automation client raises its "not found and create=False" error
without polling or sleeping. -/
theorem c4_notfound_propagated :
    (∀ (probe : Nat → Bool) (s : Tmpl.TmplState) (name : String),
      lookupKey name s.repos = none →
      Tmpl.get_repository probe s name false = (s, ⟨0, 0, .error (.http 404)⟩)) ∧
    (∀ (createStatus : Nat) (probe : Nat → Bool),
      Eks.get_repository 404 false createStatus probe = ⟨0, 0, .error .notFoundNoCreate⟩) := by
  constructor
  · intro probe s name h
    simp [Tmpl.get_repository, h]
  · intro createStatus probe
    simp [Eks.get_repository]

/-- Witness for claim C4. -/
theorem c4_notfound_propagated_witness :
    Tmpl.get_repository (fun _ => false) ⟨[], 0⟩ "r" false =
      (⟨[], 0⟩, ⟨0, 0, .error (.http 404)⟩) ∧
    Eks.get_repository 404 false 500 (fun _ => false) = ⟨0, 0, .error .notFoundNoCreate⟩ :=
  ⟨c4_notfound_propagated.1 (fun _ => false) ⟨[], 0⟩ "r" rfl,
   c4_notfound_propagated.2 500 (fun _ => false)⟩

/-- Claim C7: `get_repository(create=True)` is idempotent — the second
call for the same name observes the repository (200, not 404), returns a
descriptor with the same default branch, and issues no second
repository-creation POST (the remote's creation counter is unchanged). -/
theorem c7_get_or_create_idempotent (p1 p2 : Nat → Bool) (s : Tmpl.TmplState) (name : String)
    (hname : lookupKey name s.repos = none)
    (hrepos : lookupKey "repos" s.repos = none)
    (hne : name ≠ "repos") :
    ∃ r1 r2 : Tmpl.TRepo,
      (Tmpl.get_repository p1 s name true).2.result = .ok r1 ∧
      (Tmpl.get_repository p2 (Tmpl.get_repository p1 s name true).1 name true).2.result =
        .ok r2 ∧
      r1.default_branch = r2.default_branch ∧
      (Tmpl.get_repository p2 (Tmpl.get_repository p1 s name true).1 name true).1.createPosts =
        (Tmpl.get_repository p1 s name true).1.createPosts := by
  have hforall : ∀ p ∈ s.repos, p.1 ≠ name := forall_ne_of_lookupKey_none hname
  have hstate : Tmpl.setHasBranch ⟨(name, ⟨"main", false⟩) :: s.repos, s.createPosts + 1⟩ name =
      ⟨(name, ⟨"main", true⟩) :: s.repos, s.createPosts + 1⟩ := by
    simp [Tmpl.setHasBranch, setHasBranch_map_no_hit name s.repos hforall]
  have h1 : Tmpl.get_repository p1 s name true =
      (⟨(name, ⟨"main", true⟩) :: s.repos, s.createPosts + 1⟩,
       ⟨0, 2, .ok ⟨"main", false⟩⟩) := by
    simp only [Tmpl.get_repository, hname]
    rw [hstate]
    rw [show lookupKey "repos" ((name, (⟨"main", true⟩ : Tmpl.TRepo)) :: s.repos) = none by
      rw [lookupKey_cons_ne _ _ hne]; exact hrepos]
    rfl
  have h2 : Tmpl.get_repository p2 ⟨(name, ⟨"main", true⟩) :: s.repos, s.createPosts + 1⟩
      name true =
      (⟨(name, ⟨"main", true⟩) :: s.repos, s.createPosts + 1⟩, ⟨0, 0, .ok ⟨"main", true⟩⟩) := by
    simp only [Tmpl.get_repository, lookupKey_cons_self]
  refine ⟨⟨"main", false⟩, ⟨"main", true⟩, ?_, ?_, rfl, ?_⟩
  · rw [h1]
  · rw [h1]
    rw [h2]
  · rw [h1]
    rw [h2]

/-- Witness for claim C7. -/
theorem c7_get_or_create_idempotent_witness :
    ∃ r1 r2 : Tmpl.TRepo,
      (Tmpl.get_repository (fun _ => true) ⟨[], 0⟩ "proj" true).2.result = .ok r1 ∧
      (Tmpl.get_repository (fun _ => true)
        (Tmpl.get_repository (fun _ => true) ⟨[], 0⟩ "proj" true).1 "proj" true).2.result =
        .ok r2 ∧
      r1.default_branch = r2.default_branch ∧
      (Tmpl.get_repository (fun _ => true)
        (Tmpl.get_repository (fun _ => true) ⟨[], 0⟩ "proj" true).1 "proj" true).1.createPosts =
        (Tmpl.get_repository (fun _ => true) ⟨[], 0⟩ "proj" true).1.createPosts :=
  c7_get_or_create_idempotent (fun _ => true) (fun _ => true) ⟨[], 0⟩ "proj"
    rfl rfl (by decide)

/-! ## Claim C5 — the final reference step of the tree writer -/

/-- A remote whose Git-data writes behave honestly but whose reference
PATCH and reference-creation POST both fail (e.g. server-side errors):
used to observe that already-created blob/tree/commit objects are kept. -/
def refFailApi : GitApi GitState :=
  { idealApi with
      updateReference := fun s _ _ _ => (s, .error (.http 500)),
      createReference := fun s _ _ => (s, .error (.http 422)) }

/-- A remote whose reference PATCH always fails with HTTP 500 while
everything else is honest: used to observe the fallback firing although
the reference exists. -/
def patchFailApi : GitApi GitState :=
  { idealApi with
      updateReference := fun s _ _ _ => (s, .error (.http 500)) }

/-- Claim C5 (amended): the tree writer's final step first attempts the
reference PATCH (`update_reference`, `force=True`); whenever that PATCH
fails — not only when the reference is missing — it falls back to
`create_reference`; if both fail the whole write raises; and the
blob/tree/commit objects created earlier are not rolled back (shown
against a remote failing both reference operations: the final store still
holds the new blob, tree and commit). -/
theorem c5_reference_finalize_amended :
    (∀ {σ : Type} (api : GitApi σ) (s : σ) (b : String) (sha : Nat),
      (∀ s', api.updateReference s ("heads/" ++ b) sha true = (s', .ok ()) →
        Eks.finalizeReference api s b sha = (s', false, .ok ())) ∧
      (∀ s' e s'', api.updateReference s ("heads/" ++ b) sha true = (s', .error e) →
        api.createReference s' ("refs/heads/" ++ b) sha = (s'', .ok ()) →
        Eks.finalizeReference api s b sha = (s'', true, .ok ())) ∧
      (∀ s' e s'' e', api.updateReference s ("heads/" ++ b) sha true = (s', .error e) →
        api.createReference s' ("refs/heads/" ++ b) sha = (s'', .error e') →
        Eks.finalizeReference api s b sha = (s'', true, .error .refUpdateFailed))) ∧
    ((Eks.commit_repository_contents refFailApi ⟨0, [], [], [], []⟩
        [("a.txt", [1])] "m" (some "main")).result = .error .refUpdateFailed ∧
      (Eks.commit_repository_contents refFailApi ⟨0, [], [], [], []⟩
        [("a.txt", [1])] "m" (some "main")).state.blobs = [(0, [1])] ∧
      (Eks.commit_repository_contents refFailApi ⟨0, [], [], [], []⟩
        [("a.txt", [1])] "m" (some "main")).state.trees = [(1, [("a.txt", 0)])] ∧
      (Eks.commit_repository_contents refFailApi ⟨0, [], [], [], []⟩
        [("a.txt", [1])] "m" (some "main")).state.commits = [(2, ⟨"m", 1, []⟩)]) := by
  constructor
  · intro σ api s b sha
    refine ⟨?_, ?_, ?_⟩
    · intro s' h
      simp only [Eks.finalizeReference, h]
    · intro s' e s'' h1 h2
      simp only [Eks.finalizeReference, h1, h2]
    · intro s' e s'' e' h1 h2
      simp only [Eks.finalizeReference, h1, h2]
  · exact ⟨rfl, rfl, rfl, rfl⟩

/-- Counterexample to claim C5 as stated ("exactly when the reference does
not exist it falls back"): against a remote whose PATCH fails with HTTP
500 while the target reference `heads/main` does exist, the writer still
falls back to `create_reference` (`didCreateRef = true`). -/
theorem c5_counterexample :
    (Eks.commit_repository_contents patchFailApi
      ⟨3, [(0, [35])], [(1, [("README.md", 0)])], [(2, ⟨"init", 1, []⟩)],
       [("heads/main", 2)]⟩
      [("config.json", [123])] "m" (some "main")).didCreateRef = true ∧
    lookupKey "heads/main"
      (⟨3, [(0, [35])], [(1, [("README.md", 0)])], [(2, ⟨"init", 1, []⟩)],
        [("heads/main", 2)]⟩ : GitState).refs = some 2 :=
  ⟨rfl, rfl⟩

/-- Witness for the amended claim C5: against the honest service with no
existing reference, the PATCH fails and the fallback creates the
reference. -/
theorem c5_reference_finalize_amended_witness :
    Eks.finalizeReference idealApi ⟨0, [], [], [], []⟩ "main" 7 =
      (⟨0, [], [], [], [("heads/main", 7)]⟩, true, .ok ()) :=
  (c5_reference_finalize_amended.1 idealApi ⟨0, [], [], [], []⟩ "main" 7).2.1
    ⟨0, [], [], [], []⟩ (.http 422) ⟨0, [], [], [], [("heads/main", 7)]⟩ rfl rfl

/-! ## `Tmpl.clone_repository_contents` — the contents-API replication path -/

namespace Tmpl

/-- The remote interactions of the contents-API copier, abstracted as the
outcomes the remote produces for each step: whether the source repository
GET succeeds, whether the source branch resolves, the recursive-tree blob
entries of the source (path and base64 payload), whether the target
branch already exists, whether it exists after the README initialization,
and, per file path, whether that file's copy round (source contents GET,
target existence check, target PUT) succeeds. -/
structure CloneEnv where
  sourceRepoExists : Bool
  sourceBranchResolves : Bool
  sourceFiles : List (String × String)
  targetBranchExists : Bool
  targetBranchAfterInit : Bool
  copyOk : String → Bool

/-- `content.replace("\n", "")`: the copier strips the newlines GitHub
inserts into base64 payloads. -/
def stripNewlines (s : String) : String :=
  String.mk (s.data.filter (fun c => c ≠ '\n'))

/-- The per-file copy loop (lines 663–713): skip paths equal to `".git"`
or starting with `".git/"`; copy each remaining file, catching any
per-file exception (`except Exception as file_err: logger.error(...)`) and
continuing with the rest.  Returns the files actually written to the
target. -/
def copyFiles (copyOk : String → Bool) : List (String × String) → List (String × String)
  | [] => []
  | (p, c) :: rest =>
      if strStartsWith p ".git/" || p == ".git" then copyFiles copyOk rest
      else if copyOk p then (p, stripNewlines c) :: copyFiles copyOk rest
      else copyFiles copyOk rest

/-- `GitHubClient.clone_repository_contents` (lines 597–727): resolve the
source repository (failure → `ValueError "Source repository does not
exist"`), resolve the source branch (failure → `ValueError "Source branch
does not exist"`), ensure the target branch exists (creating a README and
re-probing; failure → `ValueError`), then run the per-file copy loop and
return normally. -/
def clone_repository_contents (env : CloneEnv) : Except ApiErr (List (String × String)) :=
  if env.sourceRepoExists then
    if env.sourceBranchResolves then
      if env.targetBranchExists then .ok (copyFiles env.copyOk env.sourceFiles)
      else if env.targetBranchAfterInit then .ok (copyFiles env.copyOk env.sourceFiles)
      else .error (.valueError "Could not initialize repository")
    else .error (.valueError "Source branch does not exist")
  else .error (.valueError "Source repository does not exist")

end Tmpl

theorem copyFiles_complete (ok : String → Bool) :
    ∀ (files : List (String × String)) (p : String) (c0 : String),
    (p, c0) ∈ files → (strStartsWith p ".git/" || p == ".git") = false → ok p = true →
    (p, Tmpl.stripNewlines c0) ∈ Tmpl.copyFiles ok files := by
  intro files
  induction files with
  | nil => intro p c0 h; cases h
  | cons f rest ih =>
      intro p c0 hmem hfil hok
      obtain ⟨q, d⟩ := f
      rcases List.mem_cons.mp hmem with hh | ht
      · have hq : p = q := congrArg Prod.fst hh
        have hd : c0 = d := congrArg Prod.snd hh
        subst hq; subst hd
        simp only [Tmpl.copyFiles, hfil, Bool.false_eq_true, if_false, hok, if_true]
        exact List.mem_cons_self _ _
      · simp only [Tmpl.copyFiles]
        by_cases hfq : (strStartsWith q ".git/" || q == ".git") = true
        · simp only [hfq, if_true]
          exact ih p c0 ht hfil hok
        · simp only [Bool.not_eq_true] at hfq
          simp only [hfq, Bool.false_eq_true, if_false]
          by_cases hoq : ok q = true
          · simp only [hoq, if_true]
            exact List.mem_cons_of_mem _ (ih p c0 ht hfil hok)
          · simp only [Bool.not_eq_true] at hoq
            simp only [hoq, Bool.false_eq_true, if_false]
            exact ih p c0 ht hfil hok

theorem copyFiles_sound (ok : String → Bool) :
    ∀ (files : List (String × String)) (p : String) (c : String),
    (p, c) ∈ Tmpl.copyFiles ok files →
    (strStartsWith p ".git/" || p == ".git") = false ∧ ok p = true ∧
      ∃ c0, (p, c0) ∈ files ∧ c = Tmpl.stripNewlines c0 := by
  intro files
  induction files with
  | nil => intro p c h; cases h
  | cons f rest ih =>
      intro p c hmem
      obtain ⟨q, d⟩ := f
      simp only [Tmpl.copyFiles] at hmem
      by_cases hfq : (strStartsWith q ".git/" || q == ".git") = true
      · rw [if_pos hfq] at hmem
        obtain ⟨h1, h2, c0, h3, h4⟩ := ih p c hmem
        exact ⟨h1, h2, c0, List.mem_cons_of_mem _ h3, h4⟩
      · rw [if_neg hfq] at hmem
        by_cases hoq : ok q = true
        · rw [if_pos hoq] at hmem
          rcases List.mem_cons.mp hmem with hh | ht
          · have hq : p = q := congrArg Prod.fst hh
            have hc : c = Tmpl.stripNewlines d := congrArg Prod.snd hh
            subst hq
            refine ⟨by simpa using hfq, hoq, d, List.mem_cons_self _ _, hc⟩
          · obtain ⟨h1, h2, c0, h3, h4⟩ := ih p c ht
            exact ⟨h1, h2, c0, List.mem_cons_of_mem _ h3, h4⟩
        · rw [if_neg hoq] at hmem
          obtain ⟨h1, h2, c0, h3, h4⟩ := ih p c hmem
          exact ⟨h1, h2, c0, List.mem_cons_of_mem _ h3, h4⟩

/-- Claim C6 (amended): when the requested branch/reference cannot be
resolved to a commit, the eks_automation tree reader
(`clone_repository_contents`) returns an empty entry list together with
the best-guess branch name (the requested branch, or `"main"`) instead of
raising; the template_automation contents-API replication path instead
raises `ValueError "Source branch does not exist"` in that situation. -/
theorem c6_unresolved_ref_reader_amended :
    (∀ {σ : Type} (api : GitApi σ) (s : σ) (b : String),
      (∃ e, api.getReferenceSha s ("heads/" ++ b) = .error e) →
      Eks.clone_repository_contents api s (some b) = .ok (b, [])) ∧
    (∀ {σ : Type} (api : GitApi σ) (s : σ),
      (∃ e, api.getDefaultBranch s = .error e) →
      Eks.clone_repository_contents api s none = .ok ("main", [])) ∧
    (∀ env : Tmpl.CloneEnv, env.sourceRepoExists = true → env.sourceBranchResolves = false →
      Tmpl.clone_repository_contents env = .error (.valueError "Source branch does not exist")) := by
  refine ⟨?_, ?_, ?_⟩
  · intro σ api s b ⟨e, he⟩
    simp [Eks.clone_repository_contents, he]
  · intro σ api s ⟨e, he⟩
    simp [Eks.clone_repository_contents, he]
  · intro env h1 h2
    simp [Tmpl.clone_repository_contents, h1, h2]

/-- Counterexample to claim C6 as stated: the contents-API replication
path of the template_automation client raises `ValueError` — it does not
return an empty entry list — when the source branch cannot be resolved. -/
theorem c6_counterexample :
    Tmpl.clone_repository_contents ⟨true, false, [], true, true, fun _ => true⟩ =
      .error (.valueError "Source branch does not exist") := rfl

/-- Witness for the amended claim C6: against the honest service on an
empty store, the requested branch does not resolve and the eks reader
returns the branch name and no entries; the contents-API path raises. -/
theorem c6_unresolved_ref_reader_amended_witness :
    Eks.clone_repository_contents idealApi (⟨0, [], [], [], []⟩ : GitState) (some "feature") =
      .ok ("feature", []) ∧
    Tmpl.clone_repository_contents ⟨true, false, [("a.txt", "x")], true, true, fun _ => true⟩ =
      .error (.valueError "Source branch does not exist") :=
  ⟨c6_unresolved_ref_reader_amended.1 idealApi ⟨0, [], [], [], []⟩ "feature" ⟨.http 404, rfl⟩,
   c6_unresolved_ref_reader_amended.2.2 ⟨true, false, [("a.txt", "x")], true, true, fun _ => true⟩
     rfl rfl⟩

/-- Claim C9: in the contents-API replication path, per-file copy failures
are caught and logged inside the loop: the clone still returns normally
(`.ok`), every file whose copy round succeeds (and is not `.git`-filtered)
is written with its newline-stripped payload, and every file written comes
from a successful, unfiltered copy round — files whose copy failed are
simply absent, aborting nothing. -/
theorem c9_per_file_failure_not_fatal (env : Tmpl.CloneEnv)
    (h1 : env.sourceRepoExists = true) (h2 : env.sourceBranchResolves = true)
    (h3 : env.targetBranchExists = true) :
    ∃ l, Tmpl.clone_repository_contents env = .ok l ∧
      (∀ p c0, (p, c0) ∈ env.sourceFiles →
        (strStartsWith p ".git/" || p == ".git") = false → env.copyOk p = true →
        (p, Tmpl.stripNewlines c0) ∈ l) ∧
      (∀ p c, (p, c) ∈ l →
        env.copyOk p = true ∧ ∃ c0, (p, c0) ∈ env.sourceFiles ∧ c = Tmpl.stripNewlines c0) := by
  refine ⟨Tmpl.copyFiles env.copyOk env.sourceFiles, ?_, ?_, ?_⟩
  · simp [Tmpl.clone_repository_contents, h1, h2, h3]
  · intro p c0 hmem hfil hok
    exact copyFiles_complete env.copyOk env.sourceFiles p c0 hmem hfil hok
  · intro p c hmem
    obtain ⟨_, hok, hc⟩ := copyFiles_sound env.copyOk env.sourceFiles p c hmem
    exact ⟨hok, hc⟩

/-- Witness for claim C9: one of two files fails to copy; the clone still
returns `.ok` containing exactly the successful file. -/
theorem c9_per_file_failure_not_fatal_witness :
    ∃ l, Tmpl.clone_repository_contents
        ⟨true, true, [("a.txt", "x"), ("b.txt", "y")], true, true, fun p => p == "a.txt"⟩ =
        .ok l ∧
      (∀ p c0,
        (p, c0) ∈ [(("a.txt" : String), ("x" : String)), ("b.txt", "y")] →
        (strStartsWith p ".git/" || p == ".git") = false → (p == "a.txt") = true →
        (p, Tmpl.stripNewlines c0) ∈ l) ∧
      (∀ p c, (p, c) ∈ l →
        (p == "a.txt") = true ∧
        ∃ c0, (p, c0) ∈ [(("a.txt" : String), ("x" : String)), ("b.txt", "y")] ∧
          c = Tmpl.stripNewlines c0) :=
  c9_per_file_failure_not_fatal
    ⟨true, true, [("a.txt", "x"), ("b.txt", "y")], true, true, fun p => p == "a.txt"⟩
    rfl rfl rfl

theorem stageFiles_no_dotgit {σ : Type} (api : GitApi σ) :
    ∀ (files : List (String × List Nat)) (s s' : σ) (items : List TreeItem),
    Eks.stageFiles api s files = (s', .ok items) →
    ∀ i ∈ items, hasDotGitComponent i.path = false := by
  intro files
  induction files with
  | nil =>
      intro s s' items h i hi
      simp only [Eks.stageFiles, Prod.mk.injEq] at h
      obtain ⟨_, h2⟩ := h
      cases h2
      cases hi
  | cons f rest ih =>
      intro s s' items h i hi
      obtain ⟨p, c⟩ := f
      by_cases hgit : hasDotGitComponent p = true
      · simp only [Eks.stageFiles, hgit, if_true] at h
        exact ih s s' items h i hi
      · simp only [Bool.not_eq_true] at hgit
        simp only [Eks.stageFiles, hgit, Bool.false_eq_true, if_false] at h
        rcases hcb : api.createBlob s (b64encode c) with ⟨s1, r⟩
        rw [hcb] at h
        cases r with
        | error e => simp at h
        | ok sha =>
            dsimp only at h
            rcases hst : Eks.stageFiles api s1 rest with ⟨s2, r2⟩
            rw [hst] at h
            cases r2 with
            | error e => simp at h
            | ok items2 =>
                simp only [Prod.mk.injEq, Except.ok.injEq] at h
                obtain ⟨_, h2⟩ := h
                cases h2
                rcases List.mem_cons.mp hi with hh | ht
                · subst hh
                  exact hgit
                · exact ih s1 s2 items2 hst i ht

/-- Claim C10 (amended): the tree-based committer never stages a path
containing a `".git"` component; the contents-API copier skips only paths
equal to `".git"` or starting with `".git/"` — so no such top-level path
is ever written by it, but a nested `".git"` component (e.g.
`sub/.git/config`) is still copied. -/
theorem c10_dotgit_filtering_amended :
    (∀ {σ : Type} (api : GitApi σ) (files : List (String × List Nat)) (s s' : σ)
      (items : List TreeItem),
      Eks.stageFiles api s files = (s', .ok items) →
      ∀ i ∈ items, hasDotGitComponent i.path = false) ∧
    (∀ (ok : String → Bool) (files : List (String × String)) (p c : String),
      (p, c) ∈ Tmpl.copyFiles ok files →
      (strStartsWith p ".git/" || p == ".git") = false) := by
  constructor
  · intro σ api files s s' items h
    exact stageFiles_no_dotgit api files s s' items h
  · intro ok files p c hmem
    exact (copyFiles_sound ok files p c hmem).1

/-- Counterexample to claim C10 as stated: a file whose path has `".git"`
as a nested component passes the contents-API copier's filter and is
written to the target. -/
theorem c10_counterexample :
    Tmpl.copyFiles (fun _ => true) [("sub/.git/config", "x")] =
      [("sub/.git/config", "x")] ∧
    hasDotGitComponent "sub/.git/config" = true := by
  constructor
  · rfl
  · decide

/-- Witness for the amended claim C10. -/
theorem c10_dotgit_filtering_amended_witness :
    (∀ i ∈ [TreeItem.mk "a.txt" "100644" "blob" 0],
      hasDotGitComponent i.path = false) ∧
    (strStartsWith ".gitignore" ".git/" || ".gitignore" == ".git") = false :=
  ⟨c10_dotgit_filtering_amended.1 idealApi [(".git/config", [1]), ("a.txt", [2])]
      ⟨0, [], [], [], []⟩
      ⟨1, [(0, [2])], [], [], []⟩ [TreeItem.mk "a.txt" "100644" "blob" 0] (by decide),
   c10_dotgit_filtering_amended.2 (fun _ => true) [(".gitignore", "x")] ".gitignore" "x"
     (by decide)⟩

/-! ## Claim C8 — workflow dispatch during replication -/

/-- `GitHubClient.trigger_workflow` (template_automation/github_client.py,
lines 451–474): POST the workflow dispatch through `_request`, which
raises `HTTPError` for any response status of 400 or above; the method
itself handles nothing. -/
def trigger_workflow_dispatch (dispatchStatus : Nat) : Except ApiErr Unit :=
  if 400 ≤ dispatchStatus then .error (.http dispatchStatus) else .ok ()

/-- The success payload of a replication. -/
structure ReplicateResult where
  repository_url : String
  pull_request_url : Option String
  deriving DecidableEq, Repr

/-- Modelled from the spec: the Replication Orchestrator's `replicate`
(§4.5) is not present under `src/` — the Lambda entrypoint `src/app.py`
pulls in a `lambda_handler` from `template_automation.app` that the module
does not define.  Following §4.5 steps 8–10, after the pull request is
created (its URL supplied by the environment) the orchestrator optionally
dispatches the initialization workflow via the source-embedded
`trigger_workflow_dispatch`; an HTTP 404 from the dispatch (workflow file
absent) is logged and swallowed, any other dispatch error is fatal, and
the result carries the repository URL and the pull-request URL. -/
def replicate (repositoryUrl pullRequestUrl : String) (triggerInitWorkflow : Bool)
    (dispatchStatus : Nat) : Except ApiErr ReplicateResult :=
  if triggerInitWorkflow then
    match trigger_workflow_dispatch dispatchStatus with
    | .ok _ => .ok ⟨repositoryUrl, some pullRequestUrl⟩
    | .error (.http 404) => .ok ⟨repositoryUrl, some pullRequestUrl⟩
    | .error e => .error e
  else .ok ⟨repositoryUrl, some pullRequestUrl⟩

/-- Claim C8: when the workflow-dispatch call performed during replication
answers HTTP 404 (workflow file absent), `replicate` still returns a
success result whose `pull_request_url` is set — the 404 is swallowed, not
raised to the caller. -/
theorem c8_workflow_dispatch_404_swallowed (repositoryUrl pullRequestUrl : String) :
    replicate repositoryUrl pullRequestUrl true 404 =
      .ok ⟨repositoryUrl, some pullRequestUrl⟩ := rfl
